import Mathlib

/-!
Shallow embedding of the pokemon-cardvariant-finder scanner.

The repository consists of three TypeScript scripts; the current one
(`index.ts`, extended in the unnamed sibling with `checkV6toV9` and
`updateReadme`) is the authority.  Pure string manipulation is embedded
over `List Char`; the network prober is embedded as a function consuming
a list of HTTP responses; a thrown exception during a probe is embedded
as `Option` (with `none` standing for the exception).
-/

namespace CardScan

/-- JS `\s` test, restricted to the whitespace actually present in card lists. -/
def isWs (c : Char) : Bool := c.isWhitespace

mutual

/-- Accumulating scanner for `line.split(/\s+/)`: builds the current token. -/
def splitWsGo : List Char → List Char → List String
  | [], cur => [String.mk cur.reverse]
  | c :: t, cur =>
    if isWs c then String.mk cur.reverse :: splitWsSkip t
    else splitWsGo t (c :: cur)

/-- After a separator match of `/\s+/`: skip the rest of the whitespace run. -/
def splitWsSkip : List Char → List String
  | [] => [""]
  | c :: t => if isWs c then splitWsSkip t else splitWsGo t [c]

end

/-- Embedding of JS `line.split(/\s+/)` (leading/trailing runs yield empty tokens). -/
def splitWs (s : String) : List String := splitWsGo s.data []

/-- Embedding of JS `s.padStart(3, "0")`. -/
def padStart3 (s : String) : String :=
  if 3 ≤ s.length then s else String.mk (List.replicate (3 - s.length) '0') ++ s

/-- Characters removed by `index.ts`' `.replace(/[()\[\]']/g, "")`. -/
def isStripped (c : Char) : Bool :=
  c == '(' || c == ')' || c == '[' || c == ']' || c == Char.ofNat 39

/-- Embedding of the slug construction in `loadAllCards` of the current script:
split the raw line on whitespace, zero-pad the first token to width 3, join the
remaining tokens with hyphens, delete bracket characters and apostrophes, and
append `-{code}{paddedNumber}`. -/
def formatCard (code line : String) : String :=
  let tokens := splitWs line
  let number := tokens.headD ""
  let nameParts := tokens.tail
  let cardNumber := padStart3 number
  let rawName := String.intercalate "-" nameParts
  let cleanedName := String.mk (rawName.data.filter (fun c => !isStripped c))
  cleanedName ++ "-" ++ code ++ cardNumber

/-- Embedding of `json.cards.map((line) => ...)` in `loadAllCards`: every line
of the catalog is formatted, none skipped. -/
def formatCards (code : String) (lines : List String) : List String :=
  lines.map (formatCard code)

/-- Opening delimiter of the legacy script's `/[\[\(].*?[\]\)]/g`. -/
def isOpener (c : Char) : Bool := c == '[' || c == '('

/-- Closing delimiter of the legacy script's `/[\[\(].*?[\]\)]/g`. -/
def isCloser (c : Char) : Bool := c == ']' || c == ')'

/-- Fuelled worker for the legacy bracket-stripping `replace`: at each opening
bracket with a closing bracket somewhere after it, delete through the nearest
closing bracket; an unmatched opener is kept verbatim.  The fuel (initially the
string length, consumed once per step while the list shrinks by at least one
character per step) only makes the recursion structural. -/
def stripBracketsFuel : Nat → List Char → List Char
  | 0, l => l
  | _ + 1, [] => []
  | fuel + 1, c :: t =>
    if isOpener c && t.any isCloser then
      stripBracketsFuel fuel ((t.dropWhile (fun x => !isCloser x)).drop 1)
    else
      c :: stripBracketsFuel fuel t

/-- Embedding of the legacy bracket-stripping `replace` (lazy match from each
opening to the nearest closing bracket, global). -/
def stripBrackets (l : List Char) : List Char := stripBracketsFuel l.length l

/-- Embedding of the legacy hyphen-collapsing `replace` (regex: one or more
hyphens, global): collapse each hyphen run to one hyphen. -/
def collapseHyphens : List Char → List Char
  | [] => []
  | [c] => [c]
  | a :: b :: t =>
    if a == '-' && b == '-' then collapseHyphens (b :: t)
    else a :: collapseHyphens (b :: t)

/-- Embedding of `.replace(/^-|-$/g, "")`: drop one leading and one trailing hyphen. -/
def trimEdgeHyphens (l : List Char) : List Char :=
  let l1 := match l with
    | c :: t => if c == '-' then t else c :: t
    | [] => []
  match l1.reverse with
  | c :: t => if c == '-' then t.reverse else l1
  | [] => []

/-- Embedding of the slug construction in the legacy script's `loadAllCards` /
`readCardList`: bracketed annotations are removed together with their content,
hyphen runs are collapsed and edge hyphens trimmed. -/
def formatCardLegacy (code line : String) : String :=
  let tokens := splitWs line
  let number := tokens.headD ""
  let nameParts := tokens.tail
  let cardNumber := padStart3 number
  let rawName := String.intercalate "-" nameParts
  let cleanedName := String.mk (trimEdgeHyphens (collapseHyphens (stripBrackets rawName.data)))
  cleanedName ++ "-" ++ code ++ cardNumber

/-- Modelled from the spec: the spec's Identifier Normalizer contract (§4.1)
claims a `MalformedLineError` when the line has no ordinal token or the ordinal
is non-numeric; no such validation exists anywhere in the source, so this
definition follows the spec's words and exists only to be compared with
`formatCard`. -/
def normalizeSpec (code line : String) : Except String String :=
  let tokens := (splitWs line).filter (fun t => t ≠ "")
  match tokens with
  | [] => Except.error "MalformedLineError"
  | ord :: names =>
    if ord.data ≠ [] ∧ ord.data.all Char.isDigit then
      Except.ok (String.intercalate "-" names ++ "-" ++ code ++ padStart3 ord)
    else
      Except.error "MalformedLineError"

/-- Embedding of JS `s.includes(pat)` on character lists. -/
def containsSub (pat : List Char) : List Char → Bool
  | [] => pat.isPrefixOf []
  | c :: t => pat.isPrefixOf (c :: t) || containsSub pat t

/-- Embedding of JS `s.includes(pat)`. -/
def containsStr (s pat : String) : Bool := containsSub pat.data s.data

/-- Embedding of JS `s.replace(pat, rep)` with a string pattern: replace the
first occurrence only; a string without an occurrence is returned unchanged. -/
def replaceSub (pat rep : List Char) : List Char → List Char
  | [] => if pat.isPrefixOf [] then rep else []
  | c :: t =>
    if pat.isPrefixOf (c :: t) then rep ++ (c :: t).drop pat.length
    else c :: replaceSub pat rep t

/-- Embedding of JS `s.replace(pat, rep)` with a string pattern. -/
def replaceFirst (s pat rep : String) : String :=
  String.mk (replaceSub pat.data rep.data s.data)

/-- The digit value of a digit run, as computed by JS `Number` on the capture. -/
def digitsToNat (ds : List Char) : Nat := ds.foldl (fun a c => a * 10 + (c.toNat - 48)) 0

/-- Leftmost match of the version-number regex (hyphen, `V`, one or more
digits, hyphen) used by `checkV6toV9`, returning the captured number. -/
def versionOfData : List Char → Option Nat
  | [] => none
  | c :: t =>
    if c == '-' then
      match t with
      | 'V' :: t2 =>
        let ds := t2.takeWhile Char.isDigit
        if ds ≠ [] ∧ (t2.dropWhile Char.isDigit).head? = some '-' then some (digitsToNat ds)
        else versionOfData t
      | _ => versionOfData t
    else versionOfData t

/-- Version number extracted from a variant URL by `checkV6toV9`'s regex match. -/
def versionOf (s : String) : Option Nat := versionOfData s.data

/-- Sort key of `checkV6toV9`'s comparator: the matched version number, `0` when
the regex does not match (the `?? 0` fallback). -/
def versionKey (s : String) : Nat := (versionOf s).getD 0

/-- JS `\w` (ASCII word character). -/
def isWordChar (c : Char) : Bool := c.isAlphanum || c == '_'

/-- Whether the characters after a hyphen complete a match of the anchor regex
(one or more word characters, then exactly three digits, at end of string). -/
def tailOk (t : List Char) : Bool :=
  decide (4 ≤ t.length) && t.all isWordChar && (t.drop (t.length - 3)).all Char.isDigit

/-- Leftmost-match embedding of `card.replace` with the end-anchored regex
(hyphen, word characters, three digits, end): `some` is the replaced character
list, `none` means the regex did not match. -/
def insertV1Data : List Char → Option (List Char)
  | [] => none
  | c :: t =>
    if c == '-' && tailOk t then some (("-V1-".data) ++ t)
    else
      match insertV1Data t with
      | some r => some (c :: r)
      | none => none

/-- Embedding of `card.replace` with the end-anchored version regex, inserting
the `-V1-` token before the trailing `{code}{number}` segment; a card without a
matching tail is returned unchanged. -/
def insertV1 (card : String) : String :=
  match insertV1Data card.data with
  | some r => String.mk r
  | none => card

/-- Whether the version-anchor regex can start at some position: a hyphen
whose tail completes the match. -/
def anchorExists : List Char → Bool
  | [] => false
  | c :: t => (c == '-' && tailOk t) || anchorExists t

/-- Whether the slug ends in a hyphen followed by word characters terminating
in three digits, i.e. whether the version-anchor regex matches anywhere. -/
def hasVersionAnchor (card : String) : Bool := anchorExists card.data

/-- The catalog site prefix from the current script. -/
def baseUrl : String := "https://www.cardmarket.com/en/Pokemon/Products/Singles/"

/-- The V1 candidate URL built by `scanCards`. -/
def mkSlugV1 (set card : String) : String := baseUrl ++ set ++ "/" ++ insertV1 card

/-- The bare (un-versioned) card URL built by `scanCards`. -/
def mkBaseSlug (set card : String) : String := baseUrl ++ set ++ "/" ++ card

/-- The `-V{n}-` version token. -/
def vTag (n : Nat) : String := "-V" ++ toString n ++ "-"

/-- The V{i} candidate built by `scanCards`: first occurrence of `-V1-` in the
V1 URL replaced by `-V{i}-`. -/
def mkVi (slugV1 : String) (i : Nat) : String := replaceFirst slugV1 "-V1-" (vTag i)

/-- Embedding of `set.replace` with the global hyphen regex and a space
replacement, used for the `expansion` field. -/
def dashToSpace (s : String) : String :=
  String.mk (s.data.map (fun c => if c == '-' then ' ' else c))

/-- One HTTP response as observed by `isDirectPage`: status code, the final URL
after any redirect, and the body text. -/
structure Response where
  status : Nat
  finalUrl : String
  body : String
deriving DecidableEq

/-- Embedding of `isDirectPage`'s retry loop: the list is the stream of
responses the site returns for the repeated request; a `429` or `403` response
is consumed (after the cooldown sleep, which is invisible here) and the loop
retries; the first other response decides the result.  `none` means every
response in the stream was transient, i.e. the loop is still running. -/
def probeLoop (url : String) : List Response → Option Bool
  | [] => none
  | r :: rest =>
    if r.status = 429 then probeLoop url rest
    else if r.status = 403 then probeLoop url rest
    else if r.finalUrl ≠ url then some false
    else if containsStr r.body "Invalid product!" then some false
    else some (r.status == 200)

/-- One record of `checked-cards.json`. -/
structure CheckedEntry where
  status : String
  variants : List String
  expansion : Option String
deriving DecidableEq

/-- The `error` record written by the `catch` branch of `scanCards`. -/
def errEntry : CheckedEntry := ⟨"error", [], none⟩

/-- The checkpoint store: a key-to-record mapping in insertion order, as a JS
object holds it. -/
abbrev Store : Type := List (String × CheckedEntry)

/-- Embedding of `checked[card]` (read). -/
def lookupStore : Store → String → Option CheckedEntry
  | [], _ => none
  | (k, v) :: t, card => if k = card then some v else lookupStore t card

/-- Embedding of `checked[card] = entry`: an existing key is overwritten in
place, a new key is appended. -/
def insertStore : Store → String → CheckedEntry → Store
  | [], card, e => [(card, e)]
  | (k, v) :: t, card, e =>
    if k = card then (card, e) :: t else (k, v) :: insertStore t card e

/-- Embedding of the skip test in `scanCards`:
`already && (!updateOnlyErrors || already.status !== "error")`. -/
def shouldSkip (updateOnlyErrors : Bool) (already : Option CheckedEntry) : Bool :=
  match already with
  | none => false
  | some e => !updateOnlyErrors || !(e.status == "error")

/-- The V2..V5 probe loop of `scanCards`: probes each candidate in index order
and appends it on success; a probe fault (`none`) escapes to the `catch`. -/
def scanLoop (probe : String → Option Bool) (slugV1 : String) :
    List Nat → List String → Option (List String)
  | [], acc => some acc
  | i :: rest, acc =>
    match probe (mkVi slugV1 i) with
    | none => none
    | some true => scanLoop probe slugV1 rest (acc ++ [mkVi slugV1 i])
    | some false => scanLoop probe slugV1 rest acc

/-- The `try` block of `scanCards` for one card: `none` is an exception
escaping to the `catch`. -/
def tryProcess (probe : String → Option Bool) (set card : String) : Option CheckedEntry :=
  let slugV1 := mkSlugV1 set card
  match probe slugV1 with
  | none => none
  | some false =>
    match probe (mkBaseSlug set card) with
    | none => none
    | some false => some ⟨"error", [], none⟩
    | some true => some ⟨"no-variants", [], none⟩
  | some true =>
    match scanLoop probe slugV1 [2, 3, 4, 5] [slugV1] with
    | none => none
    | some vs => some ⟨"ok", vs, some (dashToSpace set)⟩

/-- One card's processing in `scanCards`, `try`/`catch` included: the caught
fault records the `error` entry. -/
def processCard (probe : String → Option Bool) (set card : String) : CheckedEntry :=
  (tryProcess probe set card).getD errEntry

/-- One iteration of `scanCards`' inner loop: skip per `shouldSkip`, otherwise
process the card and write its record. -/
def scanStep (probe : String → Option Bool) (mode : Bool) (set : String)
    (store : Store) (card : String) : Store :=
  if shouldSkip mode (lookupStore store card) then store
  else insertStore store card (processCard probe set card)

/-- `scanCards`' loop over one set's cards. -/
def scanSet (probe : String → Option Bool) (mode : Bool) (set : String)
    (store : Store) (cards : List String) : Store :=
  cards.foldl (scanStep probe mode set) store

/-- `scanCards`' loop over one set's cards, also returning the cards that were
actually processed (not skipped), in order. -/
def scanSetTrace (probe : String → Option Bool) (mode : Bool) (set : String) :
    Store → List String → Store × List String
  | store, [] => (store, [])
  | store, c :: rest =>
    if shouldSkip mode (lookupStore store c) then scanSetTrace probe mode set store rest
    else
      let store' := insertStore store c (processCard probe set c)
      let p := scanSetTrace probe mode set store' rest
      (p.1, c :: p.2)

/-- `checkV6toV9`'s `existingNumbers`: version numbers matched in the current
variant list (a JS `Set`; only membership is ever used). -/
def existingNumbers (vs : List String) : List Nat := vs.filterMap versionOf

/-- `checkV6toV9`'s lookup of the V5 URL used as substitution template. -/
def findV5 (vs : List String) : Option String :=
  vs.find? (fun v => containsStr v "-V5-")

/-- The 6..9 loop of `checkV6toV9` on one record: state is the growing variant
list and the `updated` flag.  `existing` is computed once, before the loop; the
V5 template is re-looked-up each iteration; a found candidate is appended only
when not already present.  The probe is total here: `checkV6toV9` has no
`try`/`catch`, so a fetch fault would abort the whole pass rather than be
recorded. -/
def extendLoop (probe : String → Bool) (existing : List Nat) :
    List Nat → List String → Bool → List String × Bool
  | [], vs, upd => (vs, upd)
  | i :: rest, vs, upd =>
    if existing.contains i then extendLoop probe existing rest vs upd
    else
      match findV5 vs with
      | none => extendLoop probe existing rest vs upd
      | some slugV5 =>
        let slugVi := replaceFirst slugV5 "-V5-" (vTag i)
        if probe slugVi then
          if vs.contains slugVi then extendLoop probe existing rest vs upd
          else extendLoop probe existing rest (vs ++ [slugVi]) true
        else extendLoop probe existing rest vs upd

/-- `checkV6toV9`'s comparator `numA - numB`: ascending by matched version
number. -/
def versionLe (a b : String) : Bool := versionKey a ≤ versionKey b

/-- `checkV6toV9`'s final sort: ascending by the matched version number (a
stable sort, as JS `Array.prototype.sort` is). -/
def sortByVersion (vs : List String) : List String := vs.mergeSort versionLe

/-- `checkV6toV9`'s treatment of one record: non-`ok` records and records
without a V5 variant are left untouched; otherwise the 6..9 loop runs and the
record is rewritten (re-sorted) only when the loop added something. -/
def extendEntry (probe : String → Bool) (e : CheckedEntry) : CheckedEntry :=
  if e.status ≠ "ok" then e
  else if !(e.variants.any (fun v => containsStr v "-V5-")) then e
  else
    let res := extendLoop probe (existingNumbers e.variants) [6, 7, 8, 9] e.variants false
    if res.2 then { e with variants := sortByVersion res.1 } else e

/-- The whole extended-range pass over the store. -/
def checkPass (probe : String → Bool) (store : Store) : Store :=
  store.map (fun kv => (kv.1, extendEntry probe kv.2))

/-- One row of `variants-found.json`. -/
structure VariantRow where
  card : String
  expansion : String
  variants : List String
deriving DecidableEq

/-- Embedding of `v.expansion || "Unknown"` (an absent or empty string is
falsy in JS). -/
def expansionOr (e : CheckedEntry) : String :=
  match e.expansion with
  | none => "Unknown"
  | some s => if s == "" then "Unknown" else s

/-- Embedding of `saveVariants`' projection: every record with a non-empty
variant list, in store order. -/
def saveVariantsList (data : Store) : List VariantRow :=
  (data.filter (fun kv => 0 < kv.2.variants.length)).map
    (fun kv => ⟨kv.1, expansionOr kv.2, kv.2.variants⟩)

/-- JS `"a/b/c".split("/")` on character lists. -/
def splitSlash : List Char → List (List Char)
  | [] => [[]]
  | c :: t =>
    if c == '/' then [] :: splitSlash t
    else
      match splitSlash t with
      | [] => [[c]]
      | h :: r => (c :: h) :: r

/-- Embedding of `link.split("/").pop() || ""` in `updateReadme`. -/
def lastSeg (link : String) : String := String.mk ((splitSlash link.data).getLastD [])

/-- One rendered markdown link of `updateReadme`. -/
def linkOf (link : String) : String := "[" ++ lastSeg link ++ "](" ++ link ++ ")"

/-- One rendered card line of `updateReadme`: the V1 entry (index 0) is sliced
off, the rest become links. -/
def renderRow (r : VariantRow) : String :=
  r.card ++ ": " ++ String.intercalate ", " ((r.variants.drop 1).map linkOf)

/-- Embedding of `updateReadme`'s grouping dictionary plus `expansionOrder`:
push onto an existing expansion's list, else append a new expansion at the end. -/
def addToGroup : List (String × List String) → String → String → List (String × List String)
  | [], exp, line => [(exp, [line])]
  | (k, ls) :: rest, exp, line =>
    if k == exp then (k, ls ++ [line]) :: rest
    else (k, ls) :: addToGroup rest exp line

/-- `updateReadme`'s rendered groups: rows with at most one variant are
skipped, the rest are grouped by expansion in first-seen order. -/
def groupRows (rows : List VariantRow) : List (String × List String) :=
  rows.foldl
    (fun acc r =>
      if r.variants.length ≤ 1 then acc
      else addToGroup acc r.expansion (renderRow r)) []

/-- The shape of a well-formed variant URL family: a fixed prefix and suffix
around the version token.  Every URL the scanner builds for one card has this
shape. -/
structure SlugShape where
  pre : String
  suf : String
deriving DecidableEq

/-- The variant URL of version `n` for a shape. -/
def mkVar (sh : SlugShape) (n : Nat) : String := sh.pre ++ vTag n ++ sh.suf

/-- Version numbers 1 through 9. -/
def nums19 : List Nat := [1, 2, 3, 4, 5, 6, 7, 8, 9]

/-- Well-formedness of a shape: the version regex recovers exactly the version
number of each variant URL, a URL contains a version token exactly for its own
version, and replacing the `-V5-` token rebuilds the sibling URL.  These hold
for every URL family the scanner constructs and are exactly what
`checkV6toV9`'s string matching relies on. -/
def WFshape (sh : SlugShape) : Bool :=
  (nums19.all fun n => versionOf (mkVar sh n) == some n) &&
  (nums19.all fun n => nums19.all fun m =>
    containsStr (mkVar sh n) (vTag m) == decide (n = m)) &&
  ([6, 7, 8, 9].all fun i => replaceFirst (mkVar sh 5) (vTag 5) (vTag i) == mkVar sh i)

/-- The variant URLs the loop over 6..9 appends for a shape: exactly the
versions not yet present whose probe succeeds (dropping those whose number is
already in the pre-computed `existing` set). -/
def newlyOf (probe : String → Bool) (sh : SlugShape) (exNums nums is : List Nat) : List Nat :=
  is.filter (fun i => !decide (i ∈ exNums) && (probe (mkVar sh i) && !decide (i ∈ nums)))

/-- A record whose `ok`-status variant list is some shape's URL family: the
form every record written by the scanner has. -/
def EntryWF (e : CheckedEntry) : Prop :=
  e.status = "ok" →
    ∃ (sh : SlugShape) (nums : List Nat),
      WFshape sh = true ∧ e.variants = nums.map (mkVar sh) ∧ ∀ n ∈ nums, n ∈ nums19

/-- Sorted by strictly ascending version number (the record invariant's order). -/
def VersionSorted (l : List String) : Prop :=
  l.Pairwise (fun a b => versionKey a < versionKey b)

/-- The store of the C6 resumability scenario: `A` recorded `ok`, `B` recorded
`error`, `C` never recorded. -/
def c6Store : Store :=
  [("A", ⟨"ok", ["uA"], none⟩), ("B", ⟨"error", [], none⟩)]

/-- The V1 URL of the C7 report scenarios. -/
def c7v1 : String :=
  "https://www.cardmarket.com/en/Pokemon/Products/Singles/Scarlet-Violet/Pikachu-V1-SVI007"

/-- The V3 URL of the C7 report scenarios. -/
def c7v3 : String :=
  "https://www.cardmarket.com/en/Pokemon/Products/Singles/Scarlet-Violet/Pikachu-V3-SVI007"

/-- A store holding one `ok` record with variants `[V1]` only. -/
def c7Store1 : Store := [("Pikachu-SVI007", ⟨"ok", [c7v1], some "Scarlet Violet"⟩)]

/-- A store holding one `ok` record with variants `[V1, V3]`. -/
def c7Store2 : Store := [("Pikachu-SVI007", ⟨"ok", [c7v1, c7v3], some "Scarlet Violet"⟩)]

/-- A concrete probe answering `NotFound` for the V3 and V5 candidates of the
C3 witness card and `Exists` for everything else. -/
def c3probe : String → Option Bool := fun u =>
  if u = mkVi (mkSlugV1 "Scarlet-Violet" "Pikachu-SVI007") 3 then some false
  else if u = mkVi (mkSlugV1 "Scarlet-Violet" "Pikachu-SVI007") 5 then some false
  else some true

/-- A concrete probe for the C4 witness, answering `NotFound` only for the V4
candidate. -/
def c4probe : String → Option Bool := fun u =>
  if u = mkVi (mkSlugV1 "Scarlet-Violet" "Bulbasaur-SVI001") 4 then some false
  else some true

/-- The concrete URL-family shape of the C4/C5 witnesses. -/
def shW : SlugShape :=
  ⟨"https://www.cardmarket.com/en/Pokemon/Products/Singles/Scarlet-Violet/Pikachu", "SVI007"⟩

/-- A store holding one well-formed `ok` record with variants `[V1, V5]`. -/
def c5Store : Store :=
  [("Pikachu-SVI007", ⟨"ok", [mkVar shW 1, mkVar shW 5], some "Scarlet Violet"⟩)]

/-- A concrete extended-range probe: only the V7 candidate exists. -/
def c5probe : String → Bool := fun u => containsStr u "-V7-"

/-- A concrete extended-range probe for the C4 witness: only V8 exists. -/
def c4probeExt : String → Bool := fun u => containsStr u "-V8-"

/-- A concrete well-formed `ok` record with variants `[V1, V5]` for the C4
witness. -/
def c4entry : CheckedEntry :=
  ⟨"ok", [mkVar shW 1, mkVar shW 5], some "Scarlet Violet"⟩

/-! ### Helper lemmas -/

/-- If the anchor regex matches nowhere, the replacement returns `none`. -/
theorem insertV1Data_eq_none (l : List Char) (h : anchorExists l = false) :
    insertV1Data l = none := by
  induction l with
  | nil => rfl
  | cons c t ih =>
    simp only [anchorExists, Bool.or_eq_false_iff] at h
    simp [insertV1Data, h.1, ih h.2]

/-- Reading back the key just written. -/
theorem lookup_insert_self (s : Store) (card : String) (e : CheckedEntry) :
    lookupStore (insertStore s card e) card = some e := by
  induction s with
  | nil => simp [insertStore, lookupStore]
  | cons kv t ih =>
    obtain ⟨k', v'⟩ := kv
    by_cases h : k' = card
    · simp [insertStore, h, lookupStore]
    · simp [insertStore, h, lookupStore, ih]

/-- Writing one key leaves every other key's record unchanged. -/
theorem lookup_insert_ne (s : Store) (card : String) (e : CheckedEntry) (k : String)
    (h : k ≠ card) : lookupStore (insertStore s card e) k = lookupStore s k := by
  induction s with
  | nil => simp [insertStore, lookupStore, Ne.symm h]
  | cons kv t ih =>
    obtain ⟨k', v'⟩ := kv
    by_cases hk : k' = card
    · subst hk
      simp [insertStore, lookupStore, Ne.symm h]
    · by_cases hk2 : k' = k
      · subst hk2
        simp [insertStore, hk, lookupStore, h]
      · simp [insertStore, hk, lookupStore, hk2, ih]

/-- The version regex recovers the version number of a well-formed variant URL. -/
theorem wf_versionOf {sh : SlugShape} (hwf : WFshape sh = true) {n : Nat} (hn : n ∈ nums19) :
    versionOf (mkVar sh n) = some n := by
  simp only [WFshape, Bool.and_eq_true, List.all_eq_true] at hwf
  have h := hwf.1.1 n hn
  rwa [beq_iff_eq] at h

/-- The sort key of a well-formed variant URL is its version number. -/
theorem wf_versionKey {sh : SlugShape} (hwf : WFshape sh = true) {n : Nat} (hn : n ∈ nums19) :
    versionKey (mkVar sh n) = n := by
  rw [versionKey, wf_versionOf hwf hn]
  rfl

/-- A well-formed variant URL contains a version token exactly for its own
version. -/
theorem wf_contains {sh : SlugShape} (hwf : WFshape sh = true) {n m : Nat}
    (hn : n ∈ nums19) (hm : m ∈ nums19) :
    containsStr (mkVar sh n) (vTag m) = true ↔ n = m := by
  simp only [WFshape, Bool.and_eq_true, List.all_eq_true] at hwf
  have h := hwf.1.2 n hn m hm
  rw [beq_iff_eq] at h
  rw [h]
  simp

/-- Replacing the `-V5-` token of the well-formed V5 URL yields the sibling
variant URL. -/
theorem wf_replace {sh : SlugShape} (hwf : WFshape sh = true) {i : Nat}
    (hi : i ∈ [6, 7, 8, 9]) :
    replaceFirst (mkVar sh 5) "-V5-" (vTag i) = mkVar sh i := by
  simp only [WFshape, Bool.and_eq_true, List.all_eq_true] at hwf
  have h := hwf.2 i hi
  rw [beq_iff_eq] at h
  rwa [show vTag 5 = "-V5-" from rfl] at h

/-- Well-formed variant URLs of distinct versions are distinct strings. -/
theorem mkVar_inj {sh : SlugShape} (hwf : WFshape sh = true) {n m : Nat}
    (hn : n ∈ nums19) (hm : m ∈ nums19) (h : mkVar sh n = mkVar sh m) : n = m := by
  have h1 := wf_versionOf hwf hn
  rw [h, wf_versionOf hwf hm] at h1
  exact (Option.some.injEq _ _ ▸ h1.symm)

/-- Membership of a well-formed variant URL in a mapped version list. -/
theorem mem_map_mkVar {sh : SlugShape} (hwf : WFshape sh = true) {nums : List Nat}
    (hb : ∀ n ∈ nums, n ∈ nums19) {i : Nat} (hi : i ∈ nums19) :
    mkVar sh i ∈ nums.map (mkVar sh) ↔ i ∈ nums := by
  constructor
  · intro h
    obtain ⟨n, hn, he⟩ := List.mem_map.mp h
    exact mkVar_inj hwf (hb n hn) hi he ▸ hn
  · exact fun h => List.mem_map_of_mem _ h

/-- The numbers `checkV6toV9` extracts from a well-formed variant list are
exactly its version list. -/
theorem existingNumbers_map {sh : SlugShape} (hwf : WFshape sh = true) {nums : List Nat}
    (hb : ∀ n ∈ nums, n ∈ nums19) :
    existingNumbers (nums.map (mkVar sh)) = nums := by
  induction nums with
  | nil => rfl
  | cons n t ih =>
    have hn := hb n (List.mem_cons_self n t)
    have ht : existingNumbers (t.map (mkVar sh)) = t :=
      ih (fun m hm => hb m (List.mem_cons_of_mem _ hm))
    simp only [existingNumbers, List.map_cons, List.filterMap_cons,
      wf_versionOf hwf hn]
    rw [show List.filterMap versionOf (t.map (mkVar sh)) = t from ht]

/-- Membership in the extracted number set of any permutation of a well-formed
variant list. -/
theorem mem_existingNumbers_perm {sh : SlugShape} (hwf : WFshape sh = true)
    {nums : List Nat} (hb : ∀ n ∈ nums, n ∈ nums19) {vs : List String}
    (hp : List.Perm vs (nums.map (mkVar sh))) (i : Nat) :
    i ∈ existingNumbers vs ↔ i ∈ nums := by
  unfold existingNumbers
  rw [(hp.filterMap versionOf).mem_iff]
  rw [show List.filterMap versionOf (nums.map (mkVar sh)) = nums from
    existingNumbers_map hwf hb]

/-- `find?` on a list whose only satisfying element is `a` returns `a`. -/
theorem find?_eq_of_mem_of_unique {α : Type} {p : α → Bool} {l : List α} {a : α}
    (ha : a ∈ l) (hpa : p a = true) (huniq : ∀ b ∈ l, p b = true → b = a) :
    l.find? p = some a := by
  induction l with
  | nil => cases ha
  | cons x t ih =>
    by_cases hx : p x = true
    · have hxa : x = a := huniq x (List.mem_cons_self x t) hx
      subst hxa
      rw [List.find?_cons_of_pos _ hx]
    · rw [List.find?_cons_of_neg _ (by simpa using hx)]
      have ha' : a ∈ t := by
        rcases List.mem_cons.mp ha with h | h
        · exact absurd (h ▸ hpa) hx
        · exact h
      exact ih ha' (fun b hb hpb => huniq b (List.mem_cons_of_mem _ hb) hpb)

/-- On any permutation of a well-formed variant list containing V5, the V5
template lookup finds exactly the V5 URL. -/
theorem findV5_eq {sh : SlugShape} (hwf : WFshape sh = true) {nums : List Nat}
    (hb : ∀ n ∈ nums, n ∈ nums19) {vs : List String}
    (hp : List.Perm vs (nums.map (mkVar sh))) (h5 : 5 ∈ nums) :
    findV5 vs = some (mkVar sh 5) := by
  have h5' : (5 : Nat) ∈ nums19 := by decide
  have hmem : mkVar sh 5 ∈ vs := hp.mem_iff.mpr (List.mem_map_of_mem _ h5)
  have hcont : containsStr (mkVar sh 5) "-V5-" = true := by
    have h := (wf_contains hwf h5' h5').mpr rfl
    rwa [show vTag 5 = "-V5-" from rfl] at h
  apply find?_eq_of_mem_of_unique hmem hcont
  intro b hb' hpb
  obtain ⟨n, hn, he⟩ := List.mem_map.mp (hp.mem_iff.mp hb')
  subst he
  have hn5 : n = 5 := by
    have h := wf_contains hwf (hb n hn) h5'
    rw [show vTag 5 = "-V5-" from rfl] at h
    exact h.mp hpb
  rw [hn5]

/-- Membership test of a well-formed variant URL in any permutation of a
well-formed variant list. -/
theorem contains_mkVar {sh : SlugShape} (hwf : WFshape sh = true) {nums : List Nat}
    (hb : ∀ n ∈ nums, n ∈ nums19) {vs : List String}
    (hp : List.Perm vs (nums.map (mkVar sh))) {i : Nat} (hi : i ∈ nums19) :
    vs.contains (mkVar sh i) = true ↔ i ∈ nums := by
  rw [show (vs.contains (mkVar sh i) = true) ↔ mkVar sh i ∈ vs by simp]
  rw [hp.mem_iff]
  exact mem_map_mkVar hwf hb hi

/-- The `-V5-` guard of `checkV6toV9` holds exactly when version 5 is present. -/
theorem any_containsV5 {sh : SlugShape} (hwf : WFshape sh = true) {nums : List Nat}
    (hb : ∀ n ∈ nums, n ∈ nums19) {vs : List String}
    (hp : List.Perm vs (nums.map (mkVar sh))) :
    (vs.any fun v => containsStr v "-V5-") = true ↔ 5 ∈ nums := by
  rw [List.any_eq_true]
  constructor
  · rintro ⟨v, hv, hcv⟩
    obtain ⟨n, hn, rfl⟩ := List.mem_map.mp (hp.mem_iff.mp hv)
    have hn5 : n = 5 := by
      have h := wf_contains hwf (hb n hn) (by decide : (5 : Nat) ∈ nums19)
      rw [show vTag 5 = "-V5-" from rfl] at h
      exact h.mp hcv
    exact hn5 ▸ hn
  · intro h5
    refine ⟨mkVar sh 5, hp.mem_iff.mpr (List.mem_map_of_mem _ h5), ?_⟩
    have h := (wf_contains hwf (by decide : (5 : Nat) ∈ nums19)
      (by decide : (5 : Nat) ∈ nums19)).mpr rfl
    rwa [show vTag 5 = "-V5-" from rfl] at h

/-- Full characterization of the 6..9 loop on a well-formed variant list:
starting from any permutation of a shape's URL family, the loop appends
exactly the URLs of `newlyOf` in index order, and the `updated` flag reports
whether anything was appended. -/
theorem extendLoop_run (probe : String → Bool) {sh : SlugShape} (hwf : WFshape sh = true)
    {exNums existing : List Nat} (hex : ∀ j : Nat, j ∈ existing ↔ j ∈ exNums)
    (is : List Nat) :
    ∀ (nums : List Nat) (vs : List String) (upd : Bool),
      (∀ n ∈ nums, n ∈ nums19) → 5 ∈ nums →
      (∀ i ∈ is, i ∈ [6, 7, 8, 9]) → is.Nodup →
      List.Perm vs (nums.map (mkVar sh)) →
      extendLoop probe existing is vs upd
        = (vs ++ (newlyOf probe sh exNums nums is).map (mkVar sh),
           upd || !(newlyOf probe sh exNums nums is).isEmpty) := by
  induction is with
  | nil =>
    intro nums vs upd _ _ _ _ _
    simp [extendLoop, newlyOf]
  | cons i rest ih =>
    intro nums vs upd hb h5 his hnd hvs
    have hi4 : i ∈ [6, 7, 8, 9] := his i (List.mem_cons_self i rest)
    have hi19 : i ∈ nums19 := by
      have h : i = 6 ∨ i = 7 ∨ i = 8 ∨ i = 9 := by simpa using hi4
      rcases h with rfl | rfl | rfl | rfl <;> decide
    have hrest4 : ∀ j ∈ rest, j ∈ [6, 7, 8, 9] :=
      fun j hj => his j (List.mem_cons_of_mem _ hj)
    have hndr : rest.Nodup := (List.nodup_cons.mp hnd).2
    have hir : i ∉ rest := (List.nodup_cons.mp hnd).1
    simp only [extendLoop]
    by_cases hmem : existing.contains i = true
    · rw [if_pos hmem]
      have hiex : i ∈ exNums := (hex i).mp (by simpa using hmem)
      rw [ih nums vs upd hb h5 hrest4 hndr hvs]
      have hdrop : newlyOf probe sh exNums nums (i :: rest)
          = newlyOf probe sh exNums nums rest := by
        simp [newlyOf, List.filter_cons, hiex]
      rw [hdrop]
    · rw [if_neg hmem]
      have hiex : i ∉ exNums := fun h => hmem (by simpa using (hex i).mpr h)
      simp only [findV5_eq hwf hb hvs h5, wf_replace hwf hi4]
      by_cases hp : probe (mkVar sh i) = true
      · rw [if_pos hp]
        by_cases hc : vs.contains (mkVar sh i) = true
        · have hin : i ∈ nums := (contains_mkVar hwf hb hvs hi19).mp hc
          rw [if_pos hc]
          rw [ih nums vs upd hb h5 hrest4 hndr hvs]
          have hdrop : newlyOf probe sh exNums nums (i :: rest)
              = newlyOf probe sh exNums nums rest := by
            simp [newlyOf, List.filter_cons, hin]
          rw [hdrop]
        · have hnin : i ∉ nums := fun h => hc ((contains_mkVar hwf hb hvs hi19).mpr h)
          rw [if_neg hc]
          have hb' : ∀ n ∈ nums ++ [i], n ∈ nums19 := by
            intro n hn
            rcases List.mem_append.mp hn with h | h
            · exact hb n h
            · have : n = i := by simpa using h
              exact this ▸ hi19
          have h5' : (5 : Nat) ∈ nums ++ [i] := List.mem_append_left _ h5
          have hvs' : List.Perm (vs ++ [mkVar sh i]) ((nums ++ [i]).map (mkVar sh)) := by
            rw [List.map_append]
            exact hvs.append_right [mkVar sh i]
          rw [ih (nums ++ [i]) (vs ++ [mkVar sh i]) true hb' h5' hrest4 hndr hvs']
          have hfilter : newlyOf probe sh exNums (nums ++ [i]) rest
              = newlyOf probe sh exNums nums rest := by
            unfold newlyOf
            apply List.filter_congr
            intro j hj
            have hji : j ≠ i := fun hh => hir (hh ▸ hj)
            simp [List.mem_append, hji]
          have hcons : newlyOf probe sh exNums nums (i :: rest)
              = i :: newlyOf probe sh exNums nums rest := by
            simp [newlyOf, List.filter_cons, hiex, hp, hnin]
          rw [hfilter, hcons]
          simp [List.map_cons, List.append_assoc]
      · rw [if_neg hp]
        rw [ih nums vs upd hb h5 hrest4 hndr hvs]
        have hdrop : newlyOf probe sh exNums nums (i :: rest)
            = newlyOf probe sh exNums nums rest := by
          simp [newlyOf, List.filter_cons, hp]
        rw [hdrop]

/-- A record whose status is not `ok` is untouched by the extended pass. -/
theorem extendEntry_nonOk (probe : String → Bool) (e : CheckedEntry)
    (h : e.status ≠ "ok") : extendEntry probe e = e := by
  rw [extendEntry, if_pos h]

/-- A record without a V5 variant is untouched by the extended pass. -/
theorem extendEntry_noV5 (probe : String → Bool) (e : CheckedEntry)
    (h : (e.variants.any fun v => containsStr v "-V5-") = false) :
    extendEntry probe e = e := by
  rw [extendEntry]
  by_cases hok : e.status ≠ "ok"
  · rw [if_pos hok]
  · rw [if_neg hok, if_pos (by simp [h])]

/-- Characterization of the extended pass on one well-formed `ok` record with
V5 present: untouched when no new version is found, otherwise rewritten with
the found URLs appended and the list re-sorted. -/
theorem extendEntry_run (probe : String → Bool) {sh : SlugShape} (hwf : WFshape sh = true)
    {nums : List Nat} (hb : ∀ n ∈ nums, n ∈ nums19) (h5 : 5 ∈ nums)
    (e : CheckedEntry) (hok : e.status = "ok")
    (hvs : List.Perm e.variants (nums.map (mkVar sh))) :
    extendEntry probe e
      = if (newlyOf probe sh nums nums [6, 7, 8, 9]).isEmpty then e
        else { e with variants :=
          sortByVersion (e.variants
            ++ (newlyOf probe sh nums nums [6, 7, 8, 9]).map (mkVar sh)) } := by
  have hex : ∀ j : Nat, j ∈ existingNumbers e.variants ↔ j ∈ nums :=
    fun j => mem_existingNumbers_perm hwf hb hvs j
  rw [extendEntry, if_neg (by simp [hok])]
  rw [if_neg (by simp [(any_containsV5 hwf hb hvs).mpr h5])]
  rw [extendLoop_run probe hwf hex [6, 7, 8, 9] nums e.variants false hb h5
    (fun i hi => hi) (by decide) hvs]
  cases hempty : (newlyOf probe sh nums nums [6, 7, 8, 9]).isEmpty with
  | true =>
    have : newlyOf probe sh nums nums [6, 7, 8, 9] = [] := by
      simpa using hempty
    simp [this]
  | false => simp [hempty]

/-- The extended pass is idempotent on any well-formed record. -/
theorem extendEntry_idem (probe : String → Bool) (e : CheckedEntry) (hwfE : EntryWF e) :
    extendEntry probe (extendEntry probe e) = extendEntry probe e := by
  by_cases hok : e.status = "ok"
  · obtain ⟨sh, nums, hwf, hvars, hb⟩ := hwfE hok
    by_cases h5 : 5 ∈ nums
    · have hperm : List.Perm e.variants (nums.map (mkVar sh)) := hvars ▸ List.Perm.refl _
      have hrun := extendEntry_run probe hwf hb h5 e hok hperm
      by_cases hemp : (newlyOf probe sh nums nums [6, 7, 8, 9]).isEmpty = true
      · rw [hrun, if_pos hemp, hrun, if_pos hemp]
      · rw [hrun, if_neg hemp]
        set nl := newlyOf probe sh nums nums [6, 7, 8, 9] with hnl
        have hnl4 : ∀ j ∈ nl, j ∈ [6, 7, 8, 9] := by
          intro j hj
          rw [hnl, newlyOf] at hj
          exact List.mem_of_mem_filter hj
        have hb' : ∀ n ∈ nums ++ nl, n ∈ nums19 := by
          intro n hn
          rcases List.mem_append.mp hn with h | h
          · exact hb n h
          · have h4 := hnl4 n h
            have : n = 6 ∨ n = 7 ∨ n = 8 ∨ n = 9 := by simpa using h4
            rcases this with rfl | rfl | rfl | rfl <;> decide
        have h5' : (5 : Nat) ∈ nums ++ nl := List.mem_append_left _ h5
        have hvs' : List.Perm
            (sortByVersion (e.variants ++ nl.map (mkVar sh)))
            ((nums ++ nl).map (mkVar sh)) := by
          refine (List.mergeSort_perm _ _).trans ?_
          rw [List.map_append]
          exact hperm.append_right (nl.map (mkVar sh))
        have hrun2 := extendEntry_run probe hwf hb' h5'
          ({ e with variants := sortByVersion (e.variants ++ nl.map (mkVar sh)) })
          (by simpa using hok) (by simpa using hvs')
        have hnil : newlyOf probe sh (nums ++ nl) (nums ++ nl) [6, 7, 8, 9] = [] := by
          rw [newlyOf]
          rw [List.filter_eq_nil_iff]
          intro i hi
          by_cases hpi : probe (mkVar sh i) = true
          · by_cases hni : i ∈ nums
            · simp [List.mem_append, hni]
            · have hinl : i ∈ nl := by
                rw [hnl, newlyOf]
                rw [List.mem_filter]
                exact ⟨hi, by simp [hni, hpi]⟩
              simp [List.mem_append, hinl]
          · simp [hpi]
        rw [hrun2, if_pos (by simp [hnil])]
    · have hg : (e.variants.any fun v => containsStr v "-V5-") = false := by
        have hperm : List.Perm e.variants (nums.map (mkVar sh)) := hvars ▸ List.Perm.refl _
        have := any_containsV5 hwf hb hperm
        cases hany : (e.variants.any fun v => containsStr v "-V5-") with
        | true => exact absurd (this.mp hany) h5
        | false => rfl
      rw [extendEntry_noV5 probe e hg, extendEntry_noV5 probe e hg]
  · rw [extendEntry_nonOk probe e hok, extendEntry_nonOk probe e hok]

/-! ### Claims -/

/-- C1: the claim's slugs are not the ones the Identifier Normalizer produces.
The current normalizer deletes only the bracket characters and apostrophes and
keeps the bracketed content and the letter case, so `"12 Mewtwo (Holo)"` with
code `"SVI"` yields `"Mewtwo-Holo-SVI012"`, not `"mewtwo-SVI012"`, and
`"7 Pikachu"` yields `"Pikachu-SVI007"`, not `"pikachu-SVI007"`. -/
theorem C1_counterexample :
    formatCard "SVI" "12 Mewtwo (Holo)" = "Mewtwo-Holo-SVI012" ∧
    formatCard "SVI" "12 Mewtwo (Holo)" ≠ "mewtwo-SVI012" ∧
    formatCard "SVI" "7 Pikachu" ≠ "pikachu-SVI007" := by
  refine ⟨by decide, by decide, by decide⟩

/-- C1 (amended): `"7 Pikachu"` with code `"SVI"` normalizes to
`"Pikachu-SVI007"` (name case preserved); the current normalizer strips only
the bracket characters and apostrophes, keeping the bracketed content, so
`"12 Mewtwo (Holo)"` normalizes to `"Mewtwo-Holo-SVI012"`; only the legacy
script removed a bracketed annotation together with its content, giving
`"Mewtwo-SVI012"`. -/
theorem C1_amended :
    formatCard "SVI" "7 Pikachu" = "Pikachu-SVI007" ∧
    formatCard "SVI" "12 Mewtwo (Holo)" = "Mewtwo-Holo-SVI012" ∧
    formatCardLegacy "SVI" "12 Mewtwo (Holo)" = "Mewtwo-SVI012" := by
  refine ⟨by decide, by decide, by decide⟩

/-- C9: normalization never fails.  On the line `"abc Pikachu"`, whose ordinal
token is non-numeric, the code silently produces the slug `"Pikachu-SVIabc"`,
while the spec's contract (modelled by `normalizeSpec`) demands a
`MalformedLineError` there. -/
theorem C9_counterexample :
    formatCard "SVI" "abc Pikachu" = "Pikachu-SVIabc" ∧
    normalizeSpec "SVI" "abc Pikachu" = Except.error "MalformedLineError" := by
  refine ⟨by decide, rfl⟩

/-- C9 (amended): normalization is total and validates nothing: a raw line with
a non-numeric ordinal token still yields a slug, the raw token standing where
the padded number would be, and the catalog mapping formats every line — no
line is skipped and no line aborts the batch. -/
theorem C9_amended :
    (∀ (code : String) (lines : List String),
      (formatCards code lines).length = lines.length) ∧
    (∀ code : String, formatCard code "abc Pikachu" = "Pikachu" ++ "-" ++ code ++ "abc") :=
  ⟨fun _ lines => List.length_map lines _, fun _ => rfl⟩

/-- C10: when a slug does not end in a hyphen followed by word characters
terminating in three digits, the version-token substitution leaves it
unchanged, so the constructed V1 candidate URL equals the bare un-versioned
slug URL character for character. -/
theorem C10_sameUrl (set card : String) (h : hasVersionAnchor card = false) :
    mkSlugV1 set card = mkBaseSlug set card := by
  unfold mkSlugV1 mkBaseSlug insertV1
  rw [insertV1Data_eq_none card.data h]

/-- C10 witness: the slug built from the raw line `"abc Pikachu"` (non-numeric
ordinal) has no version anchor, and its V1 probe URL equals its base URL. -/
theorem C10_sameUrl_witness :
    hasVersionAnchor (formatCard "SVI" "abc Pikachu") = false ∧
    mkSlugV1 "Scarlet-Violet" (formatCard "SVI" "abc Pikachu")
      = mkBaseSlug "Scarlet-Violet" (formatCard "SVI" "abc Pikachu") :=
  ⟨by decide, C10_sameUrl "Scarlet-Violet" (formatCard "SVI" "abc Pikachu") (by decide)⟩

/-- C6: skip policy.  In scan-keeping-cache mode every item present in the
store is skipped; in retry-errors-only mode a present item is skipped exactly
when its status is not `"error"`; an absent item is never skipped; and on the
store `{A ↦ ok, B ↦ error}` a retry-errors-only run over `[A, B, C]` processes
exactly `[B, C]` while a keep-cache run processes exactly `[C]`. -/
theorem C6_skipPolicy :
    (∀ e : CheckedEntry, shouldSkip false (some e) = true) ∧
    (∀ e : CheckedEntry, shouldSkip true (some e) = !(e.status == "error")) ∧
    (∀ m : Bool, shouldSkip m none = false) ∧
    (scanSetTrace (fun _ => some false) true "SVI" c6Store ["A", "B", "C"]).2 = ["B", "C"] ∧
    (scanSetTrace (fun _ => some false) false "SVI" c6Store ["A", "B", "C"]).2 = ["C"] := by
  refine ⟨fun e => rfl, fun e => by simp [shouldSkip], fun m => rfl, by decide, by decide⟩

/-- C7: the `saveVariants` projection of a store with one `ok` record holding
only `[V1]` is not empty — single-variant cards are included in
`variants-found.json`, contrary to the claim. -/
theorem C7_counterexample :
    saveVariantsList c7Store1 = [⟨"Pikachu-SVI007", "Scarlet Violet", [c7v1]⟩] ∧
    saveVariantsList c7Store1 ≠ [] := by
  refine ⟨by decide, by decide⟩

/-- C7 (amended): `saveVariants` keeps every record with a non-empty variant
list, so the `[V1]`-only store yields one report row; the single-variant
exclusion happens in the README renderer, which drops rows with at most one
variant — rendering nothing for the `[V1]` store and exactly one line whose
links list only V3 for the `[V1, V3]` store. -/
theorem C7_amended :
    groupRows (saveVariantsList c7Store1) = [] ∧
    saveVariantsList c7Store2 = [⟨"Pikachu-SVI007", "Scarlet Violet", [c7v1, c7v3]⟩] ∧
    groupRows (saveVariantsList c7Store2) =
      [("Scarlet Violet", ["Pikachu-SVI007: [Pikachu-V3-SVI007](" ++ c7v3 ++ ")"])] := by
  refine ⟨by decide, by decide, by decide⟩

/-- C2: whenever the prober returns a result, the response stream decomposes
into a (possibly empty) run of transient responses (status 429 or 403), all
absorbed by the retry loop, followed by one deciding response whose status is
neither 429 nor 403; the result is `true` exactly when that response was not
redirected, its body does not contain the `"Invalid product!"` marker, and its
status code is 200 — in every other case the result is `false`. -/
theorem C2_probeClassification (url : String) (rs : List Response) (b : Bool)
    (h : probeLoop url rs = some b) :
    ∃ pre r rest, rs = pre ++ r :: rest ∧
      (∀ x ∈ pre, x.status = 429 ∨ x.status = 403) ∧
      r.status ≠ 429 ∧ r.status ≠ 403 ∧
      (b = true ↔
        (r.finalUrl = url ∧ containsStr r.body "Invalid product!" = false ∧ r.status = 200)) := by
  induction rs with
  | nil => simp [probeLoop] at h
  | cons r rest ih =>
    simp only [probeLoop] at h
    by_cases h429 : r.status = 429
    · rw [if_pos h429] at h
      obtain ⟨pre, q, rest', heq, hpre, hq1, hq2, hiff⟩ := ih h
      refine ⟨r :: pre, q, rest', by simp [heq], ?_, hq1, hq2, hiff⟩
      intro x hx
      rcases List.mem_cons.mp hx with hx | hx
      · exact Or.inl (hx ▸ h429)
      · exact hpre x hx
    · rw [if_neg h429] at h
      by_cases h403 : r.status = 403
      · rw [if_pos h403] at h
        obtain ⟨pre, q, rest', heq, hpre, hq1, hq2, hiff⟩ := ih h
        refine ⟨r :: pre, q, rest', by simp [heq], ?_, hq1, hq2, hiff⟩
        intro x hx
        rcases List.mem_cons.mp hx with hx | hx
        · exact Or.inr (hx ▸ h403)
        · exact hpre x hx
      · rw [if_neg h403] at h
        refine ⟨[], r, rest, rfl, by simp, h429, h403, ?_⟩
        by_cases hred : r.finalUrl ≠ url
        · rw [if_pos hred] at h
          have hb : b = false := (Option.some.injEq _ _ ▸ h).symm
          subst hb
          simp [hred]
        · rw [if_neg hred] at h
          push_neg at hred
          by_cases hmark : containsStr r.body "Invalid product!" = true
          · rw [if_pos hmark] at h
            have hb : b = false := (Option.some.injEq _ _ ▸ h).symm
            subst hb
            simp [hmark]
          · rw [if_neg hmark] at h
            have hb : b = (r.status == 200) := (Option.some.injEq _ _ ▸ h).symm
            subst hb
            have hm : containsStr r.body "Invalid product!" = false := by
              cases hcb : containsStr r.body "Invalid product!" with
              | true => exact absurd hcb hmark
              | false => rfl
            simp [hred, hm, beq_iff_eq]

/-- C2 witness: a stream of one rate-limited response followed by a clean 200
answer yields `Exists` with the transient response absorbed. -/
theorem C2_probeClassification_witness :
    ∃ pre r rest,
      ([⟨429, "u", ""⟩, ⟨200, "u", "page"⟩] : List Response) = pre ++ r :: rest ∧
      (∀ x ∈ pre, x.status = 429 ∨ x.status = 403) ∧
      r.status ≠ 429 ∧ r.status ≠ 403 ∧
      (true = true ↔
        (r.finalUrl = "u" ∧ containsStr r.body "Invalid product!" = false ∧ r.status = 200)) :=
  C2_probeClassification "u" [⟨429, "u", ""⟩, ⟨200, "u", "page"⟩] true (by decide)

/-- C3: with V1, V2, V4 existing and V3, V5 absent, one card's scan records
status `ok` with exactly `[V1, V2, V4]` in that order: every candidate V2..V5
is probed in ascending index order, the V3 miss does not stop V4 and V5, and a
candidate is appended only on success. -/
theorem C3_gapTolerance (probe : String → Option Bool) (set card : String)
    (h1 : probe (mkSlugV1 set card) = some true)
    (h2 : probe (mkVi (mkSlugV1 set card) 2) = some true)
    (h3 : probe (mkVi (mkSlugV1 set card) 3) = some false)
    (h4 : probe (mkVi (mkSlugV1 set card) 4) = some true)
    (h5 : probe (mkVi (mkSlugV1 set card) 5) = some false) :
    processCard probe set card =
      ⟨"ok",
       [mkSlugV1 set card, mkVi (mkSlugV1 set card) 2, mkVi (mkSlugV1 set card) 4],
       some (dashToSpace set)⟩ := by
  simp [processCard, tryProcess, scanLoop, h1, h2, h3, h4, h5]

/-- C3 witness: the gap-tolerance theorem at a concrete card and probe. -/
theorem C3_gapTolerance_witness :
    processCard c3probe "Scarlet-Violet" "Pikachu-SVI007" =
      ⟨"ok",
       [mkSlugV1 "Scarlet-Violet" "Pikachu-SVI007",
        mkVi (mkSlugV1 "Scarlet-Violet" "Pikachu-SVI007") 2,
        mkVi (mkSlugV1 "Scarlet-Violet" "Pikachu-SVI007") 4],
       some (dashToSpace "Scarlet-Violet")⟩ :=
  C3_gapTolerance c3probe "Scarlet-Violet" "Pikachu-SVI007"
    (by decide) (by decide) (by decide) (by decide) (by decide)

/-- C8: when one card's processing faults (the `try` block throws, embedded as
`tryProcess` returning `none`), the `catch` records `{status: "error",
variants: []}` for that card, the loop continues with the remaining cards, and
every other key's record is unchanged by the write. -/
theorem C8_faultIsolation (probe : String → Option Bool) (mode : Bool) (set card : String)
    (store : Store) (rest : List String)
    (hfault : tryProcess probe set card = none) :
    processCard probe set card = errEntry ∧
    scanSet probe mode set store (card :: rest)
      = scanSet probe mode set (scanStep probe mode set store card) rest ∧
    (shouldSkip mode (lookupStore store card) = false →
      lookupStore (scanStep probe mode set store card) card = some errEntry) ∧
    (∀ k, k ≠ card →
      lookupStore (scanStep probe mode set store card) k = lookupStore store k) := by
  have hpc : processCard probe set card = errEntry := by
    rw [processCard, hfault]
    rfl
  refine ⟨hpc, rfl, ?_, ?_⟩
  · intro hskip
    rw [scanStep, hskip]
    simp only [Bool.false_eq_true, if_false]
    rw [hpc, lookup_insert_self]
  · intro k hk
    rw [scanStep]
    by_cases hsk : shouldSkip mode (lookupStore store card) = true
    · rw [if_pos hsk]
    · rw [if_neg hsk]
      exact lookup_insert_ne store card _ k hk

/-- C8 witness: a probe that throws immediately, on a store already holding
`A`, records `error` for the new card `C`, leaves `A` unchanged, and the batch
equation holds. -/
theorem C8_faultIsolation_witness :
    processCard (fun _ => none) "SV" "C" = errEntry ∧
    scanSet (fun _ => none) false "SV" [("A", ⟨"ok", ["uA"], none⟩)] ["C", "D"]
      = scanSet (fun _ => none) false "SV"
          (scanStep (fun _ => none) false "SV" [("A", ⟨"ok", ["uA"], none⟩)] "C") ["D"] ∧
    lookupStore (scanStep (fun _ => none) false "SV" [("A", ⟨"ok", ["uA"], none⟩)] "C") "C"
      = some errEntry ∧
    lookupStore (scanStep (fun _ => none) false "SV" [("A", ⟨"ok", ["uA"], none⟩)] "C") "A"
      = lookupStore [("A", ⟨"ok", ["uA"], none⟩)] "A" :=
  ⟨(C8_faultIsolation (fun _ => none) false "SV" "C" [("A", ⟨"ok", ["uA"], none⟩)] ["D"] rfl).1,
   (C8_faultIsolation (fun _ => none) false "SV" "C" [("A", ⟨"ok", ["uA"], none⟩)] ["D"] rfl).2.1,
   (C8_faultIsolation (fun _ => none) false "SV" "C" [("A", ⟨"ok", ["uA"], none⟩)] ["D"]
     rfl).2.2.1 (by decide),
   (C8_faultIsolation (fun _ => none) false "SV" "C" [("A", ⟨"ok", ["uA"], none⟩)] ["D"]
     rfl).2.2.2 "A" (by decide)⟩

/-- C5: the extended-range V6–V9 pass is idempotent — run twice with the same
probe outcomes on an unchanged store of well-formed records, the second run
mutates nothing; moreover a record whose 6..9 loop set no `updated` flag is
returned untouched, and a version number already in the pre-computed existing
set is skipped outright (not re-probed, not re-added). -/
theorem C5_extendedIdempotent (probe : String → Bool) (store : Store)
    (h : ∀ kv ∈ store, EntryWF kv.2) :
    checkPass probe (checkPass probe store) = checkPass probe store ∧
    (∀ e : CheckedEntry,
      (extendLoop probe (existingNumbers e.variants) [6, 7, 8, 9] e.variants false).2 = false →
      extendEntry probe e = e) ∧
    (∀ (existing : List Nat) (i : Nat) (rest : List Nat) (vs : List String) (upd : Bool),
      existing.contains i = true →
      extendLoop probe existing (i :: rest) vs upd
        = extendLoop probe existing rest vs upd) := by
  refine ⟨?_, ?_, ?_⟩
  · unfold checkPass
    rw [List.map_map]
    apply List.map_congr_left
    intro kv hkv
    simp only [Function.comp]
    rw [extendEntry_idem probe kv.2 (h kv hkv)]
  · intro e hflag
    rw [extendEntry]
    by_cases hok : e.status ≠ "ok"
    · rw [if_pos hok]
    · rw [if_neg hok]
      by_cases hg : (e.variants.any fun v => containsStr v "-V5-") = true
      · rw [if_neg (by simp [hg])]
        simp [hflag]
      · have hg' : (e.variants.any fun v => containsStr v "-V5-") = false := by
          cases hx : (e.variants.any fun v => containsStr v "-V5-") with
          | true => exact absurd hx hg
          | false => rfl
        rw [if_pos (by simp [hg'])]
  · intro existing i rest vs upd hct
    have hmem : i ∈ existing := by simpa using hct
    simp [extendLoop, hct, hmem]

/-- C5 witness: the idempotence theorem on a concrete well-formed store (one
`ok` record holding V1 and V5) and probe (only V7 exists). -/
theorem C5_extendedIdempotent_witness :
    checkPass c5probe (checkPass c5probe c5Store) = checkPass c5probe c5Store :=
  (C5_extendedIdempotent c5probe c5Store (by
    intro kv hkv
    have hkv' : kv = ("Pikachu-SVI007",
        (⟨"ok", [mkVar shW 1, mkVar shW 5], some "Scarlet Violet"⟩ : CheckedEntry)) := by
      simpa [c5Store] using hkv
    subst hkv'
    intro _
    exact ⟨shW, [1, 5], by decide, rfl, by decide⟩)).1

/-- The V2..V5 loop of `scanCards` appends exactly the candidates whose probe
succeeds, in index order, after the accumulator. -/
theorem scanLoop_spec (probe : String → Option Bool) (slugV1 : String) :
    ∀ (is : List Nat) (acc vs : List String),
      scanLoop probe slugV1 is acc = some vs →
      vs = acc ++ (is.filter fun i => decide (probe (mkVi slugV1 i) = some true)).map
        (mkVi slugV1) := by
  intro is
  induction is with
  | nil =>
    intro acc vs h
    simp only [scanLoop, Option.some.injEq] at h
    simp [h.symm]
  | cons i rest ih =>
    intro acc vs h
    cases hp : probe (mkVi slugV1 i) with
    | none => simp [scanLoop, hp] at h
    | some b =>
      cases b with
      | true =>
        simp only [scanLoop, hp] at h
        rw [ih (acc ++ [mkVi slugV1 i]) vs h]
        simp [List.filter_cons, hp, List.append_assoc]
      | false =>
        simp only [scanLoop, hp] at h
        rw [ih acc vs h]
        simp [List.filter_cons, hp]

/-- A list pairwise non-decreasing in version key with no duplicate keys is
sorted by strictly ascending version number. -/
theorem pairwise_lt_of_le_nodup :
    ∀ l : List String, l.Pairwise (fun a b => versionKey a ≤ versionKey b) →
      (l.map versionKey).Nodup → VersionSorted l := by
  intro l
  induction l with
  | nil => intro _ _; exact List.Pairwise.nil
  | cons a t ih =>
    intro hp hn
    rw [List.pairwise_cons] at hp
    rw [List.map_cons, List.nodup_cons] at hn
    refine List.Pairwise.cons ?_ (ih hp.2 hn.2)
    intro b hb
    have hle := hp.1 b hb
    have hne : versionKey a ≠ versionKey b :=
      fun he => hn.1 (he ▸ List.mem_map_of_mem versionKey hb)
    exact lt_of_le_of_ne hle hne

/-- In a key-non-decreasing list with distinct keys, all keys at least 1, the
element of key 1 is the head. -/
theorem head?_eq_of_pairwise_le {l : List String} {x : String}
    (hp : l.Pairwise (fun a b => versionKey a ≤ versionKey b))
    (hmem : x ∈ l) (hxkey : versionKey x = 1)
    (hallge : ∀ v ∈ l, 1 ≤ versionKey v)
    (hnodup : (l.map versionKey).Nodup) :
    l.head? = some x := by
  cases l with
  | nil => cases hmem
  | cons a t =>
    rw [List.head?_cons]
    congr 1
    rcases List.mem_cons.mp hmem with rfl | hxt
    · rfl
    · rw [List.pairwise_cons] at hp
      have h1 : versionKey a ≤ 1 := hxkey ▸ hp.1 x hxt
      have h2 : 1 ≤ versionKey a := hallge a (List.mem_cons_self a t)
      have hk : versionKey a = 1 := le_antisymm h1 h2
      rw [List.map_cons, List.nodup_cons] at hnodup
      exact absurd (by rw [hk, ← hxkey]; exact List.mem_map_of_mem versionKey hxt) hnodup.1

/-- Every record written by one card's main-scan processing is the error
record, the no-variants record, or the `ok` record with the scan loop's
variant list. -/
theorem processCard_cases (probe : String → Option Bool) (set card : String) :
    processCard probe set card = errEntry ∨
    processCard probe set card = ⟨"no-variants", [], none⟩ ∨
    (∃ vs, scanLoop probe (mkSlugV1 set card) [2, 3, 4, 5] [mkSlugV1 set card] = some vs ∧
      processCard probe set card = ⟨"ok", vs, some (dashToSpace set)⟩) := by
  cases hp1 : probe (mkSlugV1 set card) with
  | none => left; simp [processCard, tryProcess, hp1, errEntry]
  | some b =>
    cases b with
    | false =>
      cases hp2 : probe (mkBaseSlug set card) with
      | none => left; simp [processCard, tryProcess, hp1, hp2, errEntry]
      | some c =>
        cases c with
        | false => left; simp [processCard, tryProcess, hp1, hp2, errEntry]
        | true => right; left; simp [processCard, tryProcess, hp1, hp2]
    | true =>
      cases hsl : scanLoop probe (mkSlugV1 set card) [2, 3, 4, 5] [mkSlugV1 set card] with
      | none => left; simp [processCard, tryProcess, hp1, hsl, errEntry]
      | some vs =>
        right; right
        refine ⟨vs, rfl, ?_⟩
        simp [processCard, tryProcess, hp1, hsl]

/-- The extended pass's sort is pairwise non-decreasing in version key. -/
theorem sortByVersion_pairwise (vs : List String) :
    (sortByVersion vs).Pairwise (fun a b => versionKey a ≤ versionKey b) := by
  have h := @List.sorted_mergeSort String versionLe
    (fun a b c h1 h2 => by
      simp only [versionLe, decide_eq_true_eq] at h1 h2 ⊢
      exact le_trans h1 h2)
    (fun a b => by
      simp only [versionLe, Bool.or_eq_true, decide_eq_true_eq]
      exact Nat.le_total _ _)
    vs
  exact List.Pairwise.imp (fun hab => by simpa [versionLe] using hab) h

/-- C4: every record written by the scanner satisfies the record invariant.
For the main scan (with the V1 URL and its V2..V5 candidates carrying their
version numbers, as every constructed URL does): an `ok` record's variant list
is non-empty, begins with the V1 URL, and is sorted by strictly ascending
version number, while a `no-variants` or `error` record's list is empty.  For
the extended-range pass on a well-formed `ok` record satisfying the invariant,
the written record again satisfies it; a non-`ok` record is not rewritten at
all. -/
theorem C4_recordInvariant :
    (∀ (probe : String → Option Bool) (set card : String),
      versionOf (mkSlugV1 set card) = some 1 →
      (∀ i ∈ [2, 3, 4, 5], versionOf (mkVi (mkSlugV1 set card) i) = some i) →
      ((processCard probe set card).status = "ok" →
        (processCard probe set card).variants ≠ [] ∧
        (processCard probe set card).variants.head? = some (mkSlugV1 set card) ∧
        VersionSorted (processCard probe set card).variants) ∧
      ((processCard probe set card).status = "no-variants" ∨
          (processCard probe set card).status = "error" →
        (processCard probe set card).variants = [])) ∧
    (∀ (probe : String → Bool) (sh : SlugShape) (nums : List Nat) (e : CheckedEntry),
      WFshape sh = true → e.status = "ok" →
      e.variants = nums.map (mkVar sh) →
      (∀ n ∈ nums, n ∈ nums19) →
      nums.Pairwise (· < ·) →
      nums.head? = some 1 →
      (extendEntry probe e).status = "ok" ∧
      (extendEntry probe e).variants ≠ [] ∧
      (extendEntry probe e).variants.head? = some (mkVar sh 1) ∧
      VersionSorted (extendEntry probe e).variants) ∧
    (∀ (probe : String → Bool) (e : CheckedEntry),
      e.status ≠ "ok" → extendEntry probe e = e) := by
  refine ⟨?_, ?_, fun probe e h => extendEntry_nonOk probe e h⟩
  · intro probe set card hv1 hvi
    rcases processCard_cases probe set card with hpc | hpc | ⟨vs, hsl, hpc⟩
    · rw [hpc]
      exact ⟨fun hok => absurd hok (by decide), fun _ => rfl⟩
    · rw [hpc]
      exact ⟨fun hok => absurd hok (by decide), fun _ => rfl⟩
    · rw [hpc]
      have hvs := scanLoop_spec probe (mkSlugV1 set card) [2, 3, 4, 5] [mkSlugV1 set card] vs hsl
      constructor
      · intro _
        rw [show (CheckedEntry.mk "ok" vs (some (dashToSpace set))).variants = vs from rfl]
        rw [hvs]
        have hjsmem : ∀ i ∈ [2, 3, 4, 5].filter
            (fun i => decide (probe (mkVi (mkSlugV1 set card) i) = some true)),
            i ∈ [2, 3, 4, 5] := fun i hi => List.mem_of_mem_filter hi
        have hkey1 : versionKey (mkSlugV1 set card) = 1 := by
          rw [versionKey, hv1]
          rfl
        have hkeyi : ∀ i ∈ [2, 3, 4, 5].filter
            (fun i => decide (probe (mkVi (mkSlugV1 set card) i) = some true)),
            versionKey (mkVi (mkSlugV1 set card) i) = i := by
          intro i hi
          rw [versionKey, hvi i (hjsmem i hi)]
          rfl
        refine ⟨by simp, by simp, ?_⟩
        rw [show ([mkSlugV1 set card] ++ ([2, 3, 4, 5].filter
            (fun i => decide (probe (mkVi (mkSlugV1 set card) i) = some true))).map
            (mkVi (mkSlugV1 set card)))
          = mkSlugV1 set card :: ([2, 3, 4, 5].filter
            (fun i => decide (probe (mkVi (mkSlugV1 set card) i) = some true))).map
            (mkVi (mkSlugV1 set card)) from rfl]
        refine List.Pairwise.cons ?_ ?_
        · intro b hb
          obtain ⟨i, hi, rfl⟩ := List.mem_map.mp hb
          rw [hkey1, hkeyi i hi]
          have h4 : i = 2 ∨ i = 3 ∨ i = 4 ∨ i = 5 := by simpa using hjsmem i hi
          rcases h4 with rfl | rfl | rfl | rfl <;> decide
        · rw [List.pairwise_map]
          have hsj : ([2, 3, 4, 5].filter
              (fun i => decide (probe (mkVi (mkSlugV1 set card) i) = some true))).Pairwise
              (· < ·) :=
            List.Pairwise.sublist (List.filter_sublist _) (by decide)
          refine List.Pairwise.imp_of_mem ?_ hsj
          intro a b ha hb hab
          rw [hkeyi a ha, hkeyi b hb]
          exact hab
      · intro hst
        rcases hst with h | h <;> simp at h
  · intro probe sh nums e hwf hok hvars hbnd hsorted hhead
    have h1mem : 1 ∈ nums := by
      cases nums with
      | nil => simp at hhead
      | cons a t =>
        rw [List.head?_cons, Option.some.injEq] at hhead
        exact hhead ▸ List.mem_cons_self a t
    have hge1 : ∀ n ∈ nums19, 1 ≤ n := by decide
    have huntouched : e.variants ≠ [] ∧ e.variants.head? = some (mkVar sh 1) ∧
        VersionSorted e.variants := by
      rw [hvars]
      refine ⟨List.ne_nil_of_mem (List.mem_map_of_mem _ h1mem), ?_, ?_⟩
      · rw [List.head?_map, hhead]
        rfl
      · rw [VersionSorted, List.pairwise_map]
        refine List.Pairwise.imp_of_mem ?_ hsorted
        intro a b ha hb hab
        rw [wf_versionKey hwf (hbnd a ha), wf_versionKey hwf (hbnd b hb)]
        exact hab
    by_cases h5 : 5 ∈ nums
    · have hperm : List.Perm e.variants (nums.map (mkVar sh)) := hvars ▸ List.Perm.refl _
      rw [extendEntry_run probe hwf hbnd h5 e hok hperm]
      by_cases hemp : (newlyOf probe sh nums nums [6, 7, 8, 9]).isEmpty = true
      · rw [if_pos hemp]
        exact ⟨hok, huntouched.1, huntouched.2.1, huntouched.2.2⟩
      · rw [if_neg hemp]
        set nl := newlyOf probe sh nums nums [6, 7, 8, 9] with hnl
        have hnl4 : ∀ j ∈ nl, j ∈ [6, 7, 8, 9] := by
          intro j hj
          rw [hnl, newlyOf] at hj
          exact List.mem_of_mem_filter hj
        have hnl19 : ∀ j ∈ nl, j ∈ nums19 := by
          intro j hj
          have h4 : j = 6 ∨ j = 7 ∨ j = 8 ∨ j = 9 := by simpa using hnl4 j hj
          rcases h4 with rfl | rfl | rfl | rfl <;> decide
        have hnlnin : ∀ j ∈ nl, j ∉ nums := by
          intro j hj
          rw [hnl, newlyOf, List.mem_filter] at hj
          have h2 := hj.2
          simp only [Bool.and_eq_true, Bool.not_eq_true', decide_eq_false_iff_not] at h2
          exact h2.2.2
        have hbnd' : ∀ n ∈ nums ++ nl, n ∈ nums19 := by
          intro n hn
          rcases List.mem_append.mp hn with h | h
          · exact hbnd n h
          · exact hnl19 n h
        have hXperm : List.Perm (sortByVersion (e.variants ++ nl.map (mkVar sh)))
            ((nums ++ nl).map (mkVar sh)) := by
          refine (List.mergeSort_perm _ _).trans ?_
          rw [List.map_append]
          exact hperm.append_right _
        have hkeysX : ((nums ++ nl).map (mkVar sh)).map versionKey = nums ++ nl := by
          rw [List.map_map]
          rw [show versionKey ∘ mkVar sh = fun n => versionKey (mkVar sh n) from rfl]
          rw [List.map_congr_left
            (fun n hn => wf_versionKey hwf (hbnd' n hn) :
              ∀ n ∈ nums ++ nl, versionKey (mkVar sh n) = n)]
          simp
        have hkeysperm : List.Perm
            ((sortByVersion (e.variants ++ nl.map (mkVar sh))).map versionKey)
            (nums ++ nl) := by
          have h1 := hXperm.map versionKey
          rwa [hkeysX] at h1
        have hnodupNL : (nums ++ nl).Nodup := by
          rw [List.nodup_append]
          refine ⟨List.Pairwise.imp (fun h => Nat.ne_of_lt h) hsorted, ?_, ?_⟩
          · rw [hnl, newlyOf]
            exact List.Nodup.filter _ (by decide)
          · intro a ha hb
            exact hnlnin a hb ha
        have hnodup : ((sortByVersion (e.variants ++ nl.map (mkVar sh))).map
            versionKey).Nodup := hkeysperm.nodup_iff.mpr hnodupNL
        have hpair := sortByVersion_pairwise (e.variants ++ nl.map (mkVar sh))
        have hmem1 : mkVar sh 1 ∈ sortByVersion (e.variants ++ nl.map (mkVar sh)) :=
          hXperm.mem_iff.mpr (List.mem_map_of_mem _ (List.mem_append_left _ h1mem))
        refine ⟨hok, ?_, ?_, ?_⟩
        · exact List.ne_nil_of_mem hmem1
        · refine head?_eq_of_pairwise_le hpair hmem1 (wf_versionKey hwf (by decide)) ?_ hnodup
          intro v hv
          obtain ⟨n, hn, rfl⟩ := List.mem_map.mp (hXperm.mem_iff.mp hv)
          rw [wf_versionKey hwf (hbnd' n hn)]
          exact hge1 n (hbnd' n hn)
        · exact pairwise_lt_of_le_nodup _ hpair hnodup
    · have hg : (e.variants.any fun v => containsStr v "-V5-") = false := by
        have hperm : List.Perm e.variants (nums.map (mkVar sh)) := hvars ▸ List.Perm.refl _
        cases hany : (e.variants.any fun v => containsStr v "-V5-") with
        | true => exact absurd ((any_containsV5 hwf hbnd hperm).mp hany) h5
        | false => rfl
      rw [extendEntry_noV5 probe e hg]
      exact ⟨hok, huntouched.1, huntouched.2.1, huntouched.2.2⟩

/-- C4 witness: the record invariant at a concrete card whose V4 candidate is
missing, a concrete well-formed `[V1, V5]` record extended by a live V8
candidate, and the error record the extended pass leaves untouched. -/
theorem C4_recordInvariant_witness :
    (((processCard c4probe "Scarlet-Violet" "Bulbasaur-SVI001").status = "ok" →
      (processCard c4probe "Scarlet-Violet" "Bulbasaur-SVI001").variants ≠ [] ∧
      (processCard c4probe "Scarlet-Violet" "Bulbasaur-SVI001").variants.head?
        = some (mkSlugV1 "Scarlet-Violet" "Bulbasaur-SVI001") ∧
      VersionSorted (processCard c4probe "Scarlet-Violet" "Bulbasaur-SVI001").variants) ∧
     ((processCard c4probe "Scarlet-Violet" "Bulbasaur-SVI001").status = "no-variants" ∨
        (processCard c4probe "Scarlet-Violet" "Bulbasaur-SVI001").status = "error" →
      (processCard c4probe "Scarlet-Violet" "Bulbasaur-SVI001").variants = [])) ∧
    ((extendEntry c4probeExt c4entry).status = "ok" ∧
     (extendEntry c4probeExt c4entry).variants ≠ [] ∧
     (extendEntry c4probeExt c4entry).variants.head? = some (mkVar shW 1) ∧
     VersionSorted (extendEntry c4probeExt c4entry).variants) ∧
    extendEntry c4probeExt errEntry = errEntry :=
  ⟨C4_recordInvariant.1 c4probe "Scarlet-Violet" "Bulbasaur-SVI001" (by decide) (by decide),
   C4_recordInvariant.2.1 c4probeExt shW [1, 5] c4entry (by decide) rfl rfl (by decide)
     (by decide) rfl,
   C4_recordInvariant.2.2 c4probeExt errEntry (by decide)⟩

end CardScan
